import Mathlib

/-!
# Verification of the boardgame tracker statistics engine

Shallow embedding of the pure statistics functions of `utils_stats.py`
(and the low-power advisory helper of `games/catan_app.py`), with proofs
of the specified properties.

Conventions of the embedding:
* Python floats are idealised as real numbers `ℝ`; quantities that the
  source computes from integer counts and exact rational constants are
  carried in `ℚ`.
* The float value `nan` (and functions that may return it) is modelled by
  `Option ℝ` with `none` standing for `nan`.
* The float value `-inf` used by the log-pmf is modelled by `Option ℝ`
  with `none` standing for `-inf` (type `LogR` below).
* A pandas `DataFrame` of rows is modelled as a list of tuples; a
  players × totals contingency table as a `List (List ℤ)` of rows.
* Database sessions are modelled by the lists of `Roll` / `Player`
  records that the source's `select` queries read.
-/

namespace BoardgameTracker

/-- A roll record: `Roll(game_id, player_id, total)` from `models.py`. -/
structure Roll where
  game_id : String
  player_id : String
  total : ℤ
deriving DecidableEq

/-- A player record: `Player(id, current_name)` from `models.py`. -/
structure Player where
  id : String
  current_name : String
deriving DecidableEq

/-- The totals `range(2, 13)` used throughout `utils_stats.py`. -/
def totals2to12 : List ℤ := [2, 3, 4, 5, 6, 7, 8, 9, 10, 11, 12]

/-- Embeds `rolls_distribution_df`: counts of each total 2..12 among the rolls of
one game. -/
def rolls_distribution_df (rolls : List Roll) (game_id : String) :
    List (ℤ × ℕ) :=
  let totals := (rolls.filter (fun r => r.game_id == game_id)).map Roll.total
  totals2to12.map (fun t => (t, totals.count t))

/-- Embeds `per_player_distribution_single_df`: counts of each total 2..12 among
the rolls of one player in one game. -/
def per_player_distribution_single_df (rolls : List Roll)
    (game_id player_id : String) : List (ℤ × ℕ) :=
  let totals := (rolls.filter
    (fun r => r.game_id == game_id && r.player_id == player_id)).map Roll.total
  totals2to12.map (fun t => (t, totals.count t))

/-- Embeds `lifetime_rolls_distribution_df`: counts of each total 2..12 among all
rolls. -/
def lifetime_rolls_distribution_df (rolls : List Roll) : List (ℤ × ℕ) :=
  let totals := rolls.map Roll.total
  totals2to12.map (fun t => (t, totals.count t))

/-- Dictionary lookup `id_to_name` built by `lifetime_per_player_distribution_df`:
last binding wins, as for a Python dict comprehension. -/
def idToName (players : List Player) (pid : String) : Option String :=
  (players.reverse.find? (fun p => p.id == pid)).map Player.current_name

/-- Embeds `lifetime_per_player_distribution_df`: rows `(player_name, total, count)`
for one player across all games; rows with count 0 are dropped
(`df[df["count"] > 0]`).  `player_id = None` or an unknown id yields the
empty table. -/
def lifetime_per_player_distribution_df (players : List Player)
    (rolls : List Roll) (player_id : Option String) :
    List (String × ℤ × ℕ) :=
  match player_id with
  | none => []
  | some pid =>
    match idToName players pid with
    | none => []
    | some name =>
      let totals := (rolls.filter (fun r => r.player_id == pid)).map Roll.total
      (totals2to12.map (fun t => (name, t, totals.count t))).filter
        (fun row => decide (0 < row.2.2))

/-- The fixed 2d6 weights dict `{2:1, 3:2, ..., 12:1}` of `expected_2d6_df`. -/
def weights2d6 : List (ℤ × ℤ) :=
  [(2, 1), (3, 2), (4, 3), (5, 4), (6, 5), (7, 6), (8, 5), (9, 4), (10, 3),
   (11, 2), (12, 1)]

/-- Lookup `weights[t]` (each `t` in 2..12 is present, so the default is
never reached for the keys used). -/
def weight (t : ℤ) : ℤ := ((weights2d6.lookup t).getD 0)

/-- Embeds `expected_2d6_df`: rows `(total, expected_prob, expected_count)` with
`expected_prob = weights[t]/36` and `expected_count = p * max(total_count, 0)`. -/
def expected_2d6_df (total_count : ℤ) : List (ℤ × ℚ × ℚ) :=
  totals2to12.map (fun t =>
    (t, (weight t : ℚ) / 36, (weight t : ℚ) / 36 * ((max total_count 0 : ℤ) : ℚ)))

/-- The complementary error function `erfc x = (2/√π) ∫_x^∞ e^{-t²} dt`,
modelling Python's `math.erfc`. -/
noncomputable def erfc (x : ℝ) : ℝ :=
  2 / Real.sqrt Real.pi * ∫ t in Set.Ioi x, Real.exp (-t ^ 2)

/-- Embeds `_chi2_sf`: right-tail chi-square p-value, Wilson–Hilferty fallback path
(the primary path delegates to an optional external numerics library that is
not part of this repository).  `none` models the float `nan` returned when
`df <= 0`. -/
noncomputable def chi2_sf (x : ℝ) (df : ℤ) : Option ℝ :=
  if df ≤ 0 then none
  else
    let z : ℝ := ((x / df) ^ ((1 : ℝ) / 3) - (1 - 2 / (9 * df))) /
      Real.sqrt (2 / (9 * df))
    some (0.5 * erfc (z / Real.sqrt 2))

/-- Embeds `by_total.get(t, 0)` for the dict `{int(t): int(c) for t, c in zip(...)}`
of `chisq_gof_2d6_from_df`: the last binding of a key wins, missing keys
give 0. -/
def lookupCount (tbl : List (ℤ × ℤ)) (t : ℤ) : ℤ :=
  ((tbl.reverse.find? (fun p => p.1 == t)).map Prod.snd).getD 0

/-- The probability list `[1/36, 2/36, ..., 1/36]` of `chisq_gof_2d6_from_df`. -/
def gofProbs : List ℚ :=
  [1/36, 2/36, 3/36, 4/36, 5/36, 6/36, 5/36, 4/36, 3/36, 2/36, 1/36]

/-- Embeds `chisq_gof_2d6_from_df`: chi-square goodness of fit of a count table
against the fixed 2d6 distribution.  Returns `(chi2, dof, p_value, n)`. -/
noncomputable def chisq_gof_2d6_from_df (df_counts : List (ℤ × ℤ)) :
    ℚ × ℤ × Option ℝ × ℤ :=
  let counts : List ℤ := totals2to12.map (fun t => lookupCount df_counts t)
  let n : ℤ := counts.sum
  if n ≤ 0 then (0, 10, some 1, 0)
  else
    let expected : List ℚ := gofProbs.map (fun p => (n : ℚ) * p)
    let chi2 : ℚ := ((counts.zip expected).map (fun oe =>
      if 0 < oe.2 then ((oe.1 : ℚ) - oe.2) ^ 2 / oe.2 else 0)).sum
    (chi2, 11 - 1, chi2_sf (chi2 : ℝ) (11 - 1), n)

/-- Number of rows of a contingency table (`obs.shape[0]`). -/
def nRows (tbl : List (List ℤ)) : ℕ := tbl.length

/-- Number of columns of a contingency table (`obs.shape[1]`; rows are
assumed rectangular, as for a DataFrame). -/
def nCols (tbl : List (List ℤ)) : ℕ := (tbl.headD []).length

/-- Cell `(i, j)` of the table. -/
def cell (tbl : List (List ℤ)) (i j : ℕ) : ℤ := (tbl.getD i []).getD j 0

/-- Embeds `row_sums.loc[i]`. -/
def rowSum (tbl : List (List ℤ)) (i : ℕ) : ℤ := (tbl.getD i []).sum

/-- Embeds `col_sums.loc[j]`. -/
def colSum (tbl : List (List ℤ)) (j : ℕ) : ℤ :=
  (tbl.map (fun r => r.getD j 0)).sum

/-- Embeds `table.values.sum()`: the grand total. -/
def grandTotal (tbl : List (List ℤ)) : ℤ := (tbl.map List.sum).sum

/-- Entry `(i, j)` of the `expected` DataFrame:
`row_sums.loc[i] * col_sums.loc[j] / n if n > 0 else 0.0`. -/
def expectedCell (tbl : List (List ℤ)) (i j : ℕ) : ℚ :=
  if 0 < (grandTotal tbl : ℚ) then
    (rowSum tbl i : ℚ) * (colSum tbl j : ℚ) / (grandTotal tbl : ℚ)
  else 0

/-- Embeds `chisq_independence_players`: chi-square test of independence on a
players × totals table.  Returns `(chi2, dof, p_value, n, num_players)`.
Cells whose expected value is 0 are skipped (`expected.replace(0, pd.NA)`
makes them `NA`, which the pandas sum drops). -/
noncomputable def chisq_independence_players (tbl : List (List ℤ)) :
    ℚ × ℤ × Option ℝ × ℤ × ℤ :=
  if nRows tbl = 0 ∨ nCols tbl = 0 ∨ grandTotal tbl = 0 then
    (0, 0, some 1, 0, 0)
  else
    let chi2 : ℚ := ∑ i ∈ Finset.range (nRows tbl), ∑ j ∈ Finset.range (nCols tbl),
      (if expectedCell tbl i j = 0 then 0
       else ((cell tbl i j : ℚ) - expectedCell tbl i j) ^ 2 / expectedCell tbl i j)
    let dof : ℤ := ((nRows tbl : ℤ) - 1) * ((nCols tbl : ℤ) - 1)
    let p : Option ℝ := if 0 < dof then chi2_sf (chi2 : ℝ) dof else some 1
    (chi2, dof, p, grandTotal tbl, (nRows tbl : ℤ))

/-- Embeds `cramers_v`: Cramér's V effect size. -/
noncomputable def cramers_v (chi2 : ℝ) (n r c : ℤ) : ℝ :=
  if n ≤ 0 then 0
  else
    let denom : ℤ := n * min (r - 1) (c - 1)
    if 0 < denom then Real.sqrt (chi2 / (denom : ℝ)) else 0

/-- Log-probability values of `_log_binom_pmf`: `none` models the float
`-inf`. -/
abbrev LogR := Option ℝ

/-- Comparison `a <= b` on log values, with `-inf` below everything. -/
def logLE : LogR → LogR → Prop
  | none, _ => True
  | some _, none => False
  | some a, some b => a ≤ b

/-- Addition `a + c` for a log value and a real constant (`-inf + c = -inf`). -/
def logAdd (a : LogR) (c : ℝ) : LogR := a.map (· + c)

/-- Embeds `math.exp` on a log value (`exp(-inf) = 0`). -/
noncomputable def logExp : LogR → ℝ
  | none => 0
  | some a => Real.exp a

/-- Embeds `_log_binom_pmf`: stable log PMF for Binomial(n, p) at k, via
`math.lgamma` (= `log ∘ Gamma` on the positive arguments used here). -/
noncomputable def log_binom_pmf (k n : ℤ) (p : ℝ) : LogR :=
  if p ≤ 0 then (if k = 0 then some 0 else none)
  else if 1 ≤ p then (if k = n then some 0 else none)
  else some (Real.log (Real.Gamma ((n : ℝ) + 1))
    - Real.log (Real.Gamma ((k : ℝ) + 1))
    - Real.log (Real.Gamma ((n : ℝ) - (k : ℝ) + 1))
    + (k : ℝ) * Real.log p + ((n : ℝ) - (k : ℝ)) * Real.log (1 - p))

open Classical in
/-- Embeds `binom_two_sided_pvalue`: exact two-sided binomial p-value, the sum of
`exp(log_pmf(x))` over all `x` in `[0, n]` with
`log_pmf(x) ≤ log_pmf(k) + 1e-12`, clamped to at most 1.  `none` models the
float `nan` returned when `n ≤ 0`. -/
noncomputable def binom_two_sided_pvalue (k n : ℤ) (p : ℝ) : Option ℝ :=
  if n ≤ 0 then none
  else
    let log_pk : LogR := log_binom_pmf k n p
    let total : ℝ := ∑ x ∈ Finset.range (n.toNat + 1),
      (if logLE (log_binom_pmf (x : ℤ) n p) (logAdd log_pk 1e-12)
       then logExp (log_binom_pmf (x : ℤ) n p) else 0)
    some (min 1 total)

/-- Embeds `_low_power_note` from `games/catan_app.py`: the low-sample advisory
string attached to goodness-of-fit results. -/
def low_power_note (n : ℤ) : String :=
  if n < 180 then " — low sample; χ² may be unreliable" else ""

/-- C5: for every statistic x ≥ 0 and every df > 0, the fallback path of the
chi-square right-tail primitive computes exactly the Wilson–Hilferty
approximation z = ((x/df)^(1/3) − (1 − 2/(9·df))) / sqrt(2/(9·df)) and
returns 0.5 × erfc(z/√2). -/
theorem chi2_sf_wilson_hilferty (x : ℝ) (df : ℤ) (hx : 0 ≤ x) (hdf : 0 < df) :
    chi2_sf x df =
      some (0.5 * erfc ((((x / (df : ℝ)) ^ ((1 : ℝ) / 3) -
        (1 - 2 / (9 * (df : ℝ)))) / Real.sqrt (2 / (9 * (df : ℝ)))) /
        Real.sqrt 2)) := by
  unfold chi2_sf
  rw [if_neg (by omega : ¬ df ≤ 0)]

/-- Witness for C5 at x = 1, df = 1. -/
theorem chi2_sf_wilson_hilferty_witness :
    chi2_sf 1 1 =
      some (0.5 * erfc (((((1 : ℝ) / ((1 : ℤ) : ℝ)) ^ ((1 : ℝ) / 3) -
        (1 - 2 / (9 * ((1 : ℤ) : ℝ)))) / Real.sqrt (2 / (9 * ((1 : ℤ) : ℝ)))) /
        Real.sqrt 2)) :=
  chi2_sf_wilson_hilferty 1 1 (by norm_num) (by decide)

/-- C6: for all chi2 ≥ 0, cramers_v returns sqrt(chi2 / (n × min(r−1, c−1)))
when n > 0 and min(r−1, c−1) > 0, and returns exactly 0.0 when n ≤ 0 or
min(r−1, c−1) ≤ 0. -/
theorem cramers_v_spec (chi2 : ℝ) (n r c : ℤ) (hchi : 0 ≤ chi2) :
    (0 < n → 0 < min (r - 1) (c - 1) →
      cramers_v chi2 n r c =
        Real.sqrt (chi2 / ((n * min (r - 1) (c - 1) : ℤ) : ℝ))) ∧
    ((n ≤ 0 ∨ min (r - 1) (c - 1) ≤ 0) → cramers_v chi2 n r c = 0) := by
  unfold cramers_v
  constructor
  · intro hn hm
    rw [if_neg (by omega : ¬ n ≤ 0), if_pos (mul_pos hn hm)]
  · intro h
    rcases h with h | h
    · rw [if_pos h]
    · by_cases hn : n ≤ 0
      · rw [if_pos hn]
      · rw [if_neg hn,
          if_neg (by
            have : n * min (r - 1) (c - 1) ≤ 0 :=
              mul_nonpos_of_nonneg_of_nonpos (by omega) h
            omega)]

/-- Witness for C6: the non-degenerate case at (4, 2, 3, 3) and the
degenerate cases at n = 0 and r = 1. -/
theorem cramers_v_spec_witness :
    cramers_v 4 2 3 3 = Real.sqrt (4 / (((2 : ℤ) * min (3 - 1) (3 - 1) : ℤ) : ℝ)) ∧
    cramers_v 4 0 3 3 = 0 ∧ cramers_v 4 5 1 3 = 0 :=
  ⟨(cramers_v_spec 4 2 3 3 (by norm_num)).1 (by decide) (by decide),
   (cramers_v_spec 4 0 3 3 (by norm_num)).2 (Or.inl (by decide)),
   (cramers_v_spec 4 5 1 3 (by norm_num)).2 (Or.inr (by decide))⟩

/-- C7: for every x and df ≤ 0 the chi-square tail primitive returns NaN
(modelled as none), and for every k, p and n ≤ 0 the binomial test returns
NaN (none); neither raises. -/
theorem nan_on_degenerate_dof_and_n (x : ℝ) (k : ℤ) (p : ℝ) (df n : ℤ)
    (hdf : df ≤ 0) (hn : n ≤ 0) :
    chi2_sf x df = none ∧ binom_two_sided_pvalue k n p = none := by
  constructor
  · unfold chi2_sf
    rw [if_pos hdf]
  · unfold binom_two_sided_pvalue
    rw [if_pos hn]

/-- Witness for C7 at x = 7, df = 0, k = 3, n = −2, p = 1/2. -/
theorem nan_on_degenerate_dof_and_n_witness :
    chi2_sf 7 0 = none ∧ binom_two_sided_pvalue 3 (-2) (1 / 2) = none :=
  nan_on_degenerate_dof_and_n 7 3 (1 / 2) 0 (-2) (by decide) (by decide)

/-- C8: the low-power advisory attached to goodness-of-fit results is
produced exactly when the sample size n is below 180, and never for
n ≥ 180; a low sample is an advisory string, not an error. -/
theorem low_power_note_iff (n : ℤ) : low_power_note n ≠ "" ↔ n < 180 := by
  unfold low_power_note
  split_ifs with h
  · exact iff_of_true (by decide) h
  · exact iff_of_false (fun hc => hc rfl) h

/-- C4: expected_2d6_df N has one row per total t in 2..12 with
expected_prob = weight(t)/36 for the fixed weights and
expected_count = expected_prob × max(N, 0); the probabilities sum to 1
(hence to 1.0 within 1e-9) and for N ≥ 0 the expected counts sum to N. -/
theorem expected_2d6_df_spec (N : ℤ) :
    expected_2d6_df N =
      [(2, 1/36, 1/36 * ((max N 0 : ℤ) : ℚ)), (3, 2/36, 2/36 * ((max N 0 : ℤ) : ℚ)),
       (4, 3/36, 3/36 * ((max N 0 : ℤ) : ℚ)), (5, 4/36, 4/36 * ((max N 0 : ℤ) : ℚ)),
       (6, 5/36, 5/36 * ((max N 0 : ℤ) : ℚ)), (7, 6/36, 6/36 * ((max N 0 : ℤ) : ℚ)),
       (8, 5/36, 5/36 * ((max N 0 : ℤ) : ℚ)), (9, 4/36, 4/36 * ((max N 0 : ℤ) : ℚ)),
       (10, 3/36, 3/36 * ((max N 0 : ℤ) : ℚ)), (11, 2/36, 2/36 * ((max N 0 : ℤ) : ℚ)),
       (12, 1/36, 1/36 * ((max N 0 : ℤ) : ℚ))] ∧
    ((expected_2d6_df N).map (fun r => r.2.1)).sum = 1 ∧
    (0 ≤ N → ((expected_2d6_df N).map (fun r => r.2.2)).sum = (N : ℚ)) := by
  have hrows : expected_2d6_df N =
      [(2, 1/36, 1/36 * ((max N 0 : ℤ) : ℚ)), (3, 2/36, 2/36 * ((max N 0 : ℤ) : ℚ)),
       (4, 3/36, 3/36 * ((max N 0 : ℤ) : ℚ)), (5, 4/36, 4/36 * ((max N 0 : ℤ) : ℚ)),
       (6, 5/36, 5/36 * ((max N 0 : ℤ) : ℚ)), (7, 6/36, 6/36 * ((max N 0 : ℤ) : ℚ)),
       (8, 5/36, 5/36 * ((max N 0 : ℤ) : ℚ)), (9, 4/36, 4/36 * ((max N 0 : ℤ) : ℚ)),
       (10, 3/36, 3/36 * ((max N 0 : ℤ) : ℚ)), (11, 2/36, 2/36 * ((max N 0 : ℤ) : ℚ)),
       (12, 1/36, 1/36 * ((max N 0 : ℤ) : ℚ))] := by
    simp [expected_2d6_df, totals2to12, weight, weights2d6, List.lookup]
  refine ⟨hrows, ?_, ?_⟩
  · rw [hrows]
    norm_num
  · intro hN
    have hmax : max N 0 = N := max_eq_left hN
    rw [hrows, hmax]
    simp only [List.map_cons, List.map_nil, List.sum_cons, List.sum_nil]
    ring

/-- Witness for C4 at N = 36: the expected counts sum to 36. -/
theorem expected_2d6_df_spec_witness :
    ((expected_2d6_df 36).map (fun r => r.2.2)).sum = ((36 : ℤ) : ℚ) :=
  (expected_2d6_df_spec 36).2.2 (by decide)

/-- States the goodness-of-fit statistic the way the specification words it:
the sum over the 11 totals t with expected_t > 0 of
(observed_t − expected_t)² / expected_t, where expected_t = n × weight(t)/36. -/
def gofStat (tbl : List (ℤ × ℤ)) : ℚ :=
  (totals2to12.map (fun t =>
    let e : ℚ := (((totals2to12.map (fun s => lookupCount tbl s)).sum : ℤ) : ℚ) *
      (weight t : ℚ) / 36
    if 0 < e then ((lookupCount tbl t : ℚ) - e) ^ 2 / e else 0)).sum

/-- Congruence for one goodness-of-fit summand. -/
theorem gof_term_congr (o a b : ℚ) (h : a = b) :
    (if 0 < a then (o - a) ^ 2 / a else 0) =
      (if 0 < b then (o - b) ^ 2 / b else 0) := by
  rw [h]

/-- Equality of the implementation statistic with the specification form. -/
theorem gof_chi2_eq (tbl : List (ℤ × ℤ)) :
    (((totals2to12.map (fun t => lookupCount tbl t)).zip
        (gofProbs.map (fun p =>
          (((totals2to12.map (fun t => lookupCount tbl t)).sum : ℤ) : ℚ) * p))).map
      (fun oe => if 0 < oe.2 then ((oe.1 : ℚ) - oe.2) ^ 2 / oe.2 else 0)).sum =
    gofStat tbl := by
  simp [gofStat, totals2to12, gofProbs, weight, weights2d6, List.lookup]
  split_ifs with h
  · ring
  · rfl

/-- C1: chisq_gof_2d6_from_df returns exactly (0.0, 10, 1.0, 0) when the
summed count n is ≤ 0, and otherwise returns (statistic, 10, p, n) where
the statistic is the sum over the 11 totals with expected_t > 0 of
(observed_t − expected_t)²/expected_t for expected_t = n × weight(t)/36,
and p is the chi-square right tail at (statistic, 10); the degrees of
freedom are always 10 and the function is total. -/
theorem chisq_gof_2d6_spec (tbl : List (ℤ × ℤ)) :
    ((totals2to12.map (fun t => lookupCount tbl t)).sum ≤ 0 →
      chisq_gof_2d6_from_df tbl = (0, 10, some 1, 0)) ∧
    (0 < (totals2to12.map (fun t => lookupCount tbl t)).sum →
      chisq_gof_2d6_from_df tbl =
        (gofStat tbl, 10, chi2_sf ((gofStat tbl : ℚ) : ℝ) 10,
         (totals2to12.map (fun t => lookupCount tbl t)).sum)) := by
  constructor
  · intro h
    simp only [chisq_gof_2d6_from_df]
    rw [if_pos h]
  · intro h
    simp only [chisq_gof_2d6_from_df]
    rw [if_neg (by omega), gof_chi2_eq tbl]
    norm_num

/-- A concrete count table distributed exactly as the theoretical weights
(n = 36). -/
def gofTbl : List (ℤ × ℤ) :=
  [(2, 1), (3, 2), (4, 3), (5, 4), (6, 5), (7, 6), (8, 5), (9, 4), (10, 3),
   (11, 2), (12, 1)]

/-- Witness for C1 on the theoretical table with n = 36. -/
theorem chisq_gof_2d6_spec_witness :
    0 < (totals2to12.map (fun t => lookupCount gofTbl t)).sum ∧
    chisq_gof_2d6_from_df gofTbl =
      (gofStat gofTbl, 10, chi2_sf ((gofStat gofTbl : ℚ) : ℝ) 10,
       (totals2to12.map (fun t => lookupCount gofTbl t)).sum) :=
  ⟨by decide, (chisq_gof_2d6_spec gofTbl).2 (by decide)⟩

/-- C9: the three tabulation variants feeding statistics keep all 11 totals
2..12 in ascending order with zero-filled counts (empty input gives the
all-zero table, not an error), while the lifetime per-player summary view
drops every row with count 0 — and only that variant does so. -/
theorem distribution_tables_spec (rolls : List Roll) (gid pid : String)
    (players : List Player) (opid : Option String) :
    (rolls_distribution_df rolls gid).map Prod.fst =
      [2, 3, 4, 5, 6, 7, 8, 9, 10, 11, 12] ∧
    (per_player_distribution_single_df rolls gid pid).map Prod.fst =
      [2, 3, 4, 5, 6, 7, 8, 9, 10, 11, 12] ∧
    (lifetime_rolls_distribution_df rolls).map Prod.fst =
      [2, 3, 4, 5, 6, 7, 8, 9, 10, 11, 12] ∧
    rolls_distribution_df [] gid =
      [(2, 0), (3, 0), (4, 0), (5, 0), (6, 0), (7, 0), (8, 0), (9, 0),
       (10, 0), (11, 0), (12, 0)] ∧
    per_player_distribution_single_df [] gid pid =
      [(2, 0), (3, 0), (4, 0), (5, 0), (6, 0), (7, 0), (8, 0), (9, 0),
       (10, 0), (11, 0), (12, 0)] ∧
    lifetime_rolls_distribution_df [] =
      [(2, 0), (3, 0), (4, 0), (5, 0), (6, 0), (7, 0), (8, 0), (9, 0),
       (10, 0), (11, 0), (12, 0)] ∧
    (rolls_distribution_df rolls gid).all (fun pr =>
      pr.2 == ((rolls.filter (fun r => r.game_id == gid)).map Roll.total).count pr.1) =
      true ∧
    (lifetime_per_player_distribution_df players rolls opid).all
      (fun row => decide (0 < row.2.2)) = true := by
  refine ⟨rfl, rfl, rfl, rfl, rfl, rfl, ?_, ?_⟩
  · simp [rolls_distribution_df, totals2to12]
  · cases opid with
    | none => rfl
    | some pid2 =>
      cases h : idToName players pid2 with
      | none => simp [lifetime_per_player_distribution_df, h]
      | some name =>
        simp only [lifetime_per_player_distribution_df, h, List.all_eq_true,
          List.mem_filter]
        intro row hrow
        exact hrow.2

/-- C10: lifetime_per_player_distribution_df with player_id = None, or with
an id that matches no known player, returns the empty table (no rows), not
an error and not the all-players distribution. -/
theorem lifetime_per_player_none_or_unknown (players : List Player)
    (rolls : List Roll) (opid : Option String) :
    (opid = none → lifetime_per_player_distribution_df players rolls opid = []) ∧
    (∀ pid, opid = some pid → (∀ p ∈ players, p.id ≠ pid) →
      lifetime_per_player_distribution_df players rolls opid = []) := by
  constructor
  · intro h
    subst h
    rfl
  · intro pid h hunk
    subst h
    have hfind : players.reverse.find? (fun p => p.id == pid) = none := by
      rw [List.find?_eq_none]
      intro x hx
      simp only [beq_iff_eq]
      exact hunk x (List.mem_reverse.mp hx)
    simp [lifetime_per_player_distribution_df, idToName, hfind]

/-- A one-player roster used by the C10 witness. -/
def rosterP1 : List Player := [{ id := "p1", current_name := "Alice" }]

/-- Witness for C10: the None case and an unknown id on a one-player
roster. -/
theorem lifetime_per_player_none_or_unknown_witness :
    lifetime_per_player_distribution_df rosterP1 [] none = [] ∧
    lifetime_per_player_distribution_df rosterP1 [] (some "ghost") = [] :=
  ⟨(lifetime_per_player_none_or_unknown rosterP1 [] none).1 rfl,
   (lifetime_per_player_none_or_unknown rosterP1 [] (some "ghost")).2 "ghost" rfl
     (by decide)⟩

/-- Nonnegativity of the exponential of a log value. -/
theorem logExp_nonneg (l : LogR) : 0 ≤ logExp l := by
  cases l with
  | none => exact le_refl 0
  | some a => exact (Real.exp_pos a).le

open Classical in
/-- C3: for every k in [0, n], n ≥ 1 and p in [0, 1], the binomial test
returns the sum of exp(log_pmf(x)) over all x in [0, n] with
log_pmf(x) ≤ log_pmf(k) + 1e-12, clamped to at most 1; the returned value
always lies in [0, 1]. -/
theorem binom_two_sided_pvalue_spec (k n : ℤ) (p : ℝ) (hk0 : 0 ≤ k)
    (hkn : k ≤ n) (hn : 1 ≤ n) (hp0 : 0 ≤ p) (hp1 : p ≤ 1) :
    binom_two_sided_pvalue k n p =
      some (min 1 (∑ x ∈ Finset.filter
        (fun x : ℕ => logLE (log_binom_pmf (x : ℤ) n p)
          (logAdd (log_binom_pmf k n p) 1e-12))
        (Finset.range (n.toNat + 1)),
        logExp (log_binom_pmf (x : ℤ) n p))) ∧
    ∀ v, binom_two_sided_pvalue k n p = some v → 0 ≤ v ∧ v ≤ 1 := by
  have hn0 : ¬ n ≤ 0 := by omega
  constructor
  · simp only [binom_two_sided_pvalue]
    rw [if_neg hn0, Finset.sum_filter]
  · intro v hv
    simp only [binom_two_sided_pvalue] at hv
    rw [if_neg hn0] at hv
    have hv2 := Option.some.inj hv
    subst hv2
    constructor
    · refine le_min zero_le_one (Finset.sum_nonneg ?_)
      intro x _
      split_ifs
      · exact logExp_nonneg _
      · exact le_refl 0
    · exact min_le_left _ _

open Classical in
/-- Witness for C3 at k = 0, n = 1, p = 1/2. -/
theorem binom_two_sided_pvalue_spec_witness :
    binom_two_sided_pvalue 0 1 (1 / 2) =
      some (min 1 (∑ x ∈ Finset.filter
        (fun x : ℕ => logLE (log_binom_pmf (x : ℤ) 1 (1 / 2))
          (logAdd (log_binom_pmf 0 1 (1 / 2)) 1e-12))
        (Finset.range ((1 : ℤ).toNat + 1)),
        logExp (log_binom_pmf (x : ℤ) 1 (1 / 2)))) ∧
    ∀ v, binom_two_sided_pvalue 0 1 (1 / 2) = some v → 0 ≤ v ∧ v ≤ 1 :=
  binom_two_sided_pvalue_spec 0 1 (1 / 2) (by decide) (by decide) (by decide)
    (by norm_num) (by norm_num)

/-- An element selected by getD is a member of the list or the default. -/
theorem getD_mem_or_default {α : Type} (l : List α) (i : ℕ) (d : α) :
    l.getD i d ∈ l ∨ l.getD i d = d := by
  induction l generalizing i with
  | nil =>
    right
    cases i <;> rfl
  | cons a tl ih =>
    cases i with
    | zero =>
      left
      exact List.mem_cons_self a tl
    | succ j =>
      rcases ih j with h | h
      · left
        exact List.mem_cons_of_mem a h
      · right
        exact h

/-- Row sums of a table with nonnegative entries are nonnegative. -/
theorem rowSum_nonneg (tbl : List (List ℤ))
    (hpos : ∀ row ∈ tbl, ∀ x ∈ row, 0 ≤ x) (i : ℕ) : 0 ≤ rowSum tbl i := by
  unfold rowSum
  rcases getD_mem_or_default tbl i [] with h | h
  · exact List.sum_nonneg (fun x hx => hpos _ h x hx)
  · rw [h]
    rfl

/-- Column sums of a table with nonnegative entries are nonnegative. -/
theorem colSum_nonneg (tbl : List (List ℤ))
    (hpos : ∀ row ∈ tbl, ∀ x ∈ row, 0 ≤ x) (j : ℕ) : 0 ≤ colSum tbl j := by
  unfold colSum
  apply List.sum_nonneg
  intro x hx
  rcases List.mem_map.mp hx with ⟨row, hrow, rfl⟩
  rcases getD_mem_or_default row j 0 with h | h
  · exact hpos row hrow _ h
  · rw [h]

/-- The grand total of a table with nonnegative entries is nonnegative. -/
theorem grandTotal_nonneg (tbl : List (List ℤ))
    (hpos : ∀ row ∈ tbl, ∀ x ∈ row, 0 ≤ x) : 0 ≤ grandTotal tbl := by
  unfold grandTotal
  apply List.sum_nonneg
  intro x hx
  rcases List.mem_map.mp hx with ⟨row, hrow, rfl⟩
  exact List.sum_nonneg (fun y hy => hpos row hrow y hy)

/-- States the independence statistic the way the specification words it:
the sum over all cells with expected(i,j) > 0 of (observed − expected)² /
expected, with expected(i,j) = row_sum(i) × col_sum(j) / n. -/
def indepStat (tbl : List (List ℤ)) : ℚ :=
  ∑ i ∈ Finset.range (nRows tbl), ∑ j ∈ Finset.range (nCols tbl),
    (if 0 < (rowSum tbl i : ℚ) * (colSum tbl j : ℚ) / (grandTotal tbl : ℚ) then
      ((cell tbl i j : ℚ) -
        (rowSum tbl i : ℚ) * (colSum tbl j : ℚ) / (grandTotal tbl : ℚ)) ^ 2 /
        ((rowSum tbl i : ℚ) * (colSum tbl j : ℚ) / (grandTotal tbl : ℚ))
     else 0)

/-- Equality of the implementation statistic with the specification form for
nonnegative tables with positive grand total. -/
theorem indep_chi2_eq (tbl : List (List ℤ))
    (hpos : ∀ row ∈ tbl, ∀ x ∈ row, 0 ≤ x) (hgrand : 0 < grandTotal tbl) :
    (∑ i ∈ Finset.range (nRows tbl), ∑ j ∈ Finset.range (nCols tbl),
      (if expectedCell tbl i j = 0 then 0
       else ((cell tbl i j : ℚ) - expectedCell tbl i j) ^ 2 /
         expectedCell tbl i j)) = indepStat tbl := by
  have hgq : (0 : ℚ) < (grandTotal tbl : ℚ) := by exact_mod_cast hgrand
  unfold indepStat
  apply Finset.sum_congr rfl
  intro i _
  apply Finset.sum_congr rfl
  intro j _
  have hecell : expectedCell tbl i j =
      (rowSum tbl i : ℚ) * (colSum tbl j : ℚ) / (grandTotal tbl : ℚ) := by
    unfold expectedCell
    rw [if_pos hgq]
  rw [hecell]
  have he0 : 0 ≤ (rowSum tbl i : ℚ) * (colSum tbl j : ℚ) / (grandTotal tbl : ℚ) := by
    apply div_nonneg _ hgq.le
    apply mul_nonneg
    · exact_mod_cast rowSum_nonneg tbl hpos i
    · exact_mod_cast colSum_nonneg tbl hpos j
  rcases eq_or_lt_of_le he0 with h | h
  · rw [if_pos h.symm, if_neg (by rw [← h]; exact lt_irrefl 0)]
  · rw [if_neg (ne_of_gt h), if_pos h]

/-- C2: chisq_independence_players returns exactly (0.0, 0, 1.0, 0, 0) for
an empty table or zero grand total; otherwise it returns the statistic
Σ over cells with expected(i,j) > 0 of (observed − expected)²/expected for
expected(i,j) = row_sum(i) × col_sum(j) / n, dof = (rows − 1)(cols − 1) and
p = 1.0 whenever dof ≤ 0; in particular every single-row table yields
dof = 0 and p = 1.0, without raising. -/
theorem chisq_independence_spec (tbl : List (List ℤ))
    (hrect : ∀ row ∈ tbl, row.length = nCols tbl)
    (hpos : ∀ row ∈ tbl, ∀ x ∈ row, 0 ≤ x) :
    ((nRows tbl = 0 ∨ nCols tbl = 0 ∨ grandTotal tbl = 0) →
      chisq_independence_players tbl = (0, 0, some 1, 0, 0)) ∧
    (¬(nRows tbl = 0 ∨ nCols tbl = 0 ∨ grandTotal tbl = 0) →
      chisq_independence_players tbl =
        (indepStat tbl, ((nRows tbl : ℤ) - 1) * ((nCols tbl : ℤ) - 1),
         (if 0 < ((nRows tbl : ℤ) - 1) * ((nCols tbl : ℤ) - 1) then
            chi2_sf ((indepStat tbl : ℚ) : ℝ)
              (((nRows tbl : ℤ) - 1) * ((nCols tbl : ℤ) - 1))
          else some 1),
         grandTotal tbl, (nRows tbl : ℤ))) ∧
    (nRows tbl = 1 →
      (chisq_independence_players tbl).2.1 = 0 ∧
      (chisq_independence_players tbl).2.2.1 = some 1) := by
  have hA : (nRows tbl = 0 ∨ nCols tbl = 0 ∨ grandTotal tbl = 0) →
      chisq_independence_players tbl = (0, 0, some 1, 0, 0) := by
    intro h
    simp only [chisq_independence_players]
    rw [if_pos h]
  have hB : ¬(nRows tbl = 0 ∨ nCols tbl = 0 ∨ grandTotal tbl = 0) →
      chisq_independence_players tbl =
        (indepStat tbl, ((nRows tbl : ℤ) - 1) * ((nCols tbl : ℤ) - 1),
         (if 0 < ((nRows tbl : ℤ) - 1) * ((nCols tbl : ℤ) - 1) then
            chi2_sf ((indepStat tbl : ℚ) : ℝ)
              (((nRows tbl : ℤ) - 1) * ((nCols tbl : ℤ) - 1))
          else some 1),
         grandTotal tbl, (nRows tbl : ℤ)) := by
    intro h
    push_neg at h
    have hgrand : 0 < grandTotal tbl :=
      lt_of_le_of_ne (grandTotal_nonneg tbl hpos) (Ne.symm h.2.2)
    simp only [chisq_independence_players]
    rw [if_neg (by tauto), indep_chi2_eq tbl hpos hgrand]
  refine ⟨hA, hB, ?_⟩
  intro h1
  by_cases hdeg : nRows tbl = 0 ∨ nCols tbl = 0 ∨ grandTotal tbl = 0
  · rw [hA hdeg]
    exact ⟨rfl, rfl⟩
  · rw [hB hdeg]
    have hr : (nRows tbl : ℤ) - 1 = 0 := by
      rw [h1]
      ring
    constructor
    · simp [hr]
    · simp [hr]

/-- Witness for C2: the computed branch on the table [[1,2],[3,4]] and the
single-row vacuous result on [[1,2]]. -/
theorem chisq_independence_spec_witness :
    chisq_independence_players [[1, 2], [3, 4]] =
      (indepStat [[1, 2], [3, 4]],
       ((nRows [[1, 2], [3, 4]] : ℤ) - 1) * ((nCols [[1, 2], [3, 4]] : ℤ) - 1),
       (if 0 < ((nRows [[1, 2], [3, 4]] : ℤ) - 1) *
            ((nCols [[1, 2], [3, 4]] : ℤ) - 1) then
          chi2_sf ((indepStat [[1, 2], [3, 4]] : ℚ) : ℝ)
            (((nRows [[1, 2], [3, 4]] : ℤ) - 1) *
              ((nCols [[1, 2], [3, 4]] : ℤ) - 1))
        else some 1),
       grandTotal [[1, 2], [3, 4]], (nRows [[1, 2], [3, 4]] : ℤ)) ∧
    (chisq_independence_players [[1, 2]]).2.1 = 0 ∧
    (chisq_independence_players [[1, 2]]).2.2.1 = some 1 :=
  ⟨(chisq_independence_spec [[1, 2], [3, 4]] (by decide) (by decide)).2.1
      (by decide),
   (chisq_independence_spec [[1, 2]] (by decide) (by decide)).2.2 rfl⟩

end BoardgameTracker
